/-
Verification of the ERC-8004 rebalancing agents (Python sources under
`src/agents/`) against their natural-language specification.

The Python code manipulates dynamically typed JSON-like values.  We embed
those values as the inductive type `PyVal` and translate each function of
the source shallowly:

* `validator_agent.py`: `validate_proof`, `_verify_proof_structure`,
  `_verify_proof_cryptography` (the snarkjs subprocess is an external
  collaborator; its three observable outcomes are the parameter
  `CryptoOutcome`), `_verify_rebalancing_logic`.
* `rebalancer_agent.py`: `create_rebalancing_plan` and the canonical
  serialization used by `submit_proof_for_validation`.
* `client_agent.py`: `evaluate_rebalancing_quality`,
  `check_rebalancer_reputation`.

Numeric conventions: Python integers are `Int`; the floating point numbers
produced by `/`, `round(·, 2)` and `sum(...)/len(...)` are idealized as
exact rationals `ℚ`.  Every concrete input appearing in a theorem below has
been chosen so that the corresponding Python float computation is exact
(dyadic values), so the idealization and CPython agree on those inputs.
`int(0.2*s + 0.5*c + 0.3*l)` (truncation of a float sum of non-negative
terms) is embedded as natural floor division `(2*s + 5*c + 3*l) / 10`;
the two agree on every triple of stage scores the three stages can produce
(exhaustively checked against CPython).
-/
import Mathlib

set_option maxRecDepth 8000
set_option maxHeartbeats 1000000

/-- A dynamically typed Python/JSON value: strings, integers, floats
(idealized as rationals), booleans, lists, dicts (association lists with
textually distinct keys in well-formed values) and `None`. -/
inductive PyVal where
  | str (s : String)
  | int (n : Int)
  | rat (q : Rat)
  | bool (b : Bool)
  | list (xs : List PyVal)
  | dict (entries : List (String × PyVal))
  | pyNone

/-- `d.get(key)`: first value stored under `key`, if any. -/
def dictGet : List (String × PyVal) → String → Option PyVal
  | [], _ => Option.none
  | (k, v) :: rest, key => if k = key then some v else dictGet rest key

/-- `d.get(key, default)`. -/
def dictGetD (entries : List (String × PyVal)) (key : String) (default : PyVal) : PyVal :=
  (dictGet entries key).getD default

/-- Python truthiness of a value (`bool(v)`): `None`, `False`, zero and
empty containers/strings are falsy, everything else is truthy. -/
def truthy : PyVal → Bool
  | .str s => s ≠ ""
  | .int n => n ≠ 0
  | .rat q => q ≠ 0
  | .bool b => b
  | .list xs => ¬ xs.isEmpty
  | .dict entries => ¬ entries.isEmpty
  | .pyNone => false

/-- Accumulator for decimal digit parsing. -/
def parseDigitsAux : List Char → Nat → Option Nat
  | [], acc => some acc
  | c :: cs, acc =>
    if c.isDigit then parseDigitsAux cs (10 * acc + (c.toNat - 48)) else Option.none

/-- Python `int(s)` on a decimal string: optional sign followed by at least
one digit (whitespace/underscore forms are out of scope; every malformed
string used below is malformed for CPython as well).  `Option.none` models
the `ValueError` CPython raises. -/
def parsePyInt (s : String) : Option Int :=
  match s.data with
  | [] => Option.none
  | '-' :: cs =>
    if cs.isEmpty then Option.none else (parseDigitsAux cs 0).map (fun n => -(n : Int))
  | '+' :: cs =>
    if cs.isEmpty then Option.none else (parseDigitsAux cs 0).map (fun n => (n : Int))
  | cs => (parseDigitsAux cs 0).map (fun n => (n : Int))

/-- Python `int(v)` on an arbitrary value: ints pass through, booleans are
0/1, strings are parsed, floats truncate toward zero; lists, dicts and
`None` raise `TypeError` (`Option.none`). -/
def pyIntOf : PyVal → Option Int
  | .int n => some n
  | .bool b => some (if b then 1 else 0)
  | .str s => parsePyInt s
  | .rat q => some (if 0 ≤ q then (⌊q⌋ : Int) else -⌊-q⌋)
  | .list _ => Option.none
  | .dict _ => Option.none
  | .pyNone => Option.none

/-! ## Validator agent: `_verify_proof_structure` (validator_agent.py:114-147) -/

/-- The required proof fields checked first. -/
def requiredKeys : List String := ["pi_a", "pi_b", "pi_c", "protocol", "curve"]

/-- `isinstance(v, list) and len(v) == 3`. -/
def isLen3List : PyVal → Bool
  | .list xs => xs.length = 3
  | _ => false

/-- `v == lab` for a Python string literal `lab`. -/
def isStrVal : PyVal → String → Bool
  | .str s, lab => s = lab
  | _, _ => false

/-- `isinstance(v, list)`. -/
def isListVal : PyVal → Bool
  | .list _ => true
  | _ => false

/-- `_verify_proof_structure(proof, public_inputs)`.  Tiers in source
order: missing required field → 0; wrong protocol/curve → 50;
`public_inputs` not a list → 50; a point array not a length-3 list → 60;
otherwise 100.  A non-dict `proof` value makes every tier-1 membership
test fail or raise `TypeError` (caught, returning 0), so it scores 0. -/
def verifyProofStructure (proof : PyVal) (publicInputs : PyVal) : Nat :=
  match proof with
  | .dict kvs =>
    if ¬ (requiredKeys.all fun k => (dictGet kvs k).isSome) then 0
    else if ¬ (isStrVal (dictGetD kvs "protocol" .pyNone) "groth16"
               && isStrVal (dictGetD kvs "curve" .pyNone) "bn128") then 50
    else if ¬ isListVal publicInputs then 50
    else if ¬ (isLen3List (dictGetD kvs "pi_a" .pyNone)
               && isLen3List (dictGetD kvs "pi_b" .pyNone)
               && isLen3List (dictGetD kvs "pi_c" .pyNone)) then 60
    else 100
  | _ => 0

/-! ## Validator agent: `_verify_rebalancing_logic` (validator_agent.py:197-243) -/

/-- `[(int(bal), int(price)) for bal, price in zip(balances, prices)]`:
pairwise integer conversion over the zip (which truncates at the shorter
list); a conversion failure anywhere is the `except` path. -/
def parsePairs : List PyVal → List PyVal → Option (List (Int × Int))
  | b :: bs, p :: ps =>
    match pyIntOf b, pyIntOf p, parsePairs bs ps with
    | some bi, some pi, some rest => some ((bi, pi) :: rest)
    | _, _, _ => Option.none
  | _, _ => some []

/-- `(value / new_total) * 100 if new_total > 0 else 0`. -/
def pctOf (value newTotal : Int) : Rat :=
  if 0 < newTotal then (value : Rat) / (newTotal : Rat) * 100 else 0

/-- The embedded plan: entries of `proof_package.get("rebalancing_plan", {})`.
`Option.none` models a present but non-dict plan value, on which the
subsequent `.get` attribute accesses raise (the `except` path). -/
def planEntries (pkg : List (String × PyVal)) : Option (List (String × PyVal)) :=
  match dictGet pkg "rebalancing_plan" with
  | Option.none => some []
  | some (.dict kvs) => some kvs
  | some _ => Option.none

/-- `_verify_rebalancing_logic(proof_package)`.  Mirrors the source order:
read the plan fields, convert the bound strings (a conversion failure is a
caught exception → 50), return 0 when any of the three arrays is falsy,
recompute both totals
(conversion failure → 50), 30 on total mismatch, 70 when some allocation
percentage leaves `[min_pct, max_pct]`, else 100.  A truthy non-list value
for one of the three arrays is treated as the exception path (for a string
CPython would iterate its characters; no claim distinguishes that corner,
and no input below exercises it). -/
def verifyRebalancingLogic (pkg : List (String × PyVal)) : Nat :=
  match planEntries pkg with
  | Option.none => 50
  | some plan =>
    match pyIntOf (dictGetD plan "min_allocation_pct" (.str "0")),
          pyIntOf (dictGetD plan "max_allocation_pct" (.str "100")) with
    | some minPct, some maxPct =>
      let oldB := dictGetD plan "old_balances" (.list [])
      let newB := dictGetD plan "new_balances" (.list [])
      let prices := dictGetD plan "prices" (.list [])
      if ¬ (truthy oldB && truthy newB && truthy prices) then 0
      else
        match oldB, newB, prices with
        | .list obs, .list nbs, .list ps =>
          match parsePairs obs ps, parsePairs nbs ps with
          | some oldPairs, some newPairs =>
            let oldTotal := (oldPairs.map fun bp => bp.1 * bp.2).sum
            let newTotal := (newPairs.map fun bp => bp.1 * bp.2).sum
            if oldTotal ≠ newTotal then 30
            else if newPairs.any
                (fun bp => pctOf (bp.1 * bp.2) newTotal < (minPct : Rat)
                           || (maxPct : Rat) < pctOf (bp.1 * bp.2) newTotal) then 70
            else 100
          | _, _ => 50
        | _, _, _ => 50
    | _, _ => 50

/-! ## Validator agent: `validate_proof` (validator_agent.py:29-112) -/

/-- Observable outcomes of the external snarkjs verifier call
(`_verify_proof_cryptography`, validator_agent.py:149-195): exit code 0
with "OK" in stdout, any other completed run, or a raised exception. -/
inductive CryptoOutcome where
  | verified
  | rejected
  | indeterminate
deriving DecidableEq

/-- Score mapping of `_verify_proof_cryptography`: valid → 100,
invalid → 0, exception → 50. -/
def verifyProofCryptography : CryptoOutcome → Nat
  | .verified => 100
  | .rejected => 0
  | .indeterminate => 50

/-- The `validation_report` dict built at validator_agent.py:88-95. -/
structure ValidationReport where
  structure_score : Nat
  cryptographic_score : Nat
  logic_score : Nat
  overall_score : Nat
  proof_valid : Bool
  meets_constraints : Bool
deriving DecidableEq

/-- Result of `validate_proof`: the early-exit error dict
`{"error": ..., "score": 0, "validation_complete": False}` or the final
dict carrying `is_valid`, `score` and the report (the environment-derived
fields of `validation_package` — hash, agent ids, block timestamp — are
not modelled). -/
inductive ValidationResult where
  | failure (error : String) (score : Nat) (validation_complete : Bool)
  | success (is_valid : Bool) (score : Nat) (report : ValidationReport)
deriving DecidableEq

/-- The body of `validate_proof` from line 58 on, once a package dict is in
hand: extract `proof` and `public_inputs`, exit early if either is falsy,
otherwise run the three stages and aggregate
`int(structure*0.2 + crypto*0.5 + logic*0.3)`. -/
def validateLoaded (pkg : List (String × PyVal)) (crypto : CryptoOutcome) :
    ValidationResult :=
  let proof := dictGetD pkg "proof" .pyNone
  let publicInputs := dictGetD pkg "public_inputs" .pyNone
  if ¬ (truthy proof && truthy publicInputs) then
    .failure "Invalid proof package format" 0 false
  else
    let structureScore := verifyProofStructure proof publicInputs
    let cryptoScore := verifyProofCryptography crypto
    let logicScore := verifyRebalancingLogic pkg
    let overall := (2 * structureScore + 5 * cryptoScore + 3 * logicScore) / 10
    .success (decide (70 ≤ overall)) overall
      { structure_score := structureScore
        cryptographic_score := cryptoScore
        logic_score := logicScore
        overall_score := overall
        proof_valid := decide (cryptoScore = 100)
        meets_constraints := decide (80 ≤ logicScore) }

/-- The argument of `validate_proof`: either the proof package dict itself,
or a hash string, in which case `_load_proof_package` yields the package
stored under that hash or nothing. -/
inductive ValidateArg where
  | package (pkg : List (String × PyVal))
  | dataHash (loaded : Option (List (String × PyVal)))

/-- `validate_proof(data_hash)` (validator_agent.py:29-112). -/
def validate_proof : ValidateArg → CryptoOutcome → ValidationResult
  | .package pkg, crypto => validateLoaded pkg crypto
  | .dataHash Option.none, _ => .failure "Proof package not found" 0 false
  | .dataHash (some pkg), crypto => validateLoaded pkg crypto

/-! ## Rebalancer agent: `create_rebalancing_plan` (rebalancer_agent.py:30-104)

Balances, prices and the two bound arguments are integer-valued decimal
strings per the toolchain contract; they are embedded directly as integers
(`int(bal)`, `int(price)`, `int(min_allocation_pct)` are applied by the
source before any arithmetic).  The environment-derived plan fields
(`timestamp`, `agent_id`, `agent_domain`) are not modelled. -/

/-- Rounding to the nearest integer with ties to the even integer.  CPython
`round(x, 2)` rounds the shortest decimal representation of the float `x`
and breaks exact ties to even; on floats that represent their decimal value
exactly (all inputs used in theorems below are dyadic) this agrees with
exact ties-to-even rounding of the rational value. -/
def roundHalfToEven (q : Rat) : Int :=
  let f : Int := ⌊q⌋
  if q - f < 1/2 then f
  else if (1 : Rat)/2 < q - f then f + 1
  else if f % 2 = 0 then f else f + 1

/-- Python `round(q, 2)`. -/
def pyRound2 (q : Rat) : Rat := (roundHalfToEven (q * 100) : Rat) / 100

/-- One entry of the `new_allocations` list (rebalancer_agent.py:71-76). -/
structure PlanAllocation where
  token_index : Nat
  balance : Int
  value : Int
  allocation_pct : Rat
deriving DecidableEq

/-- The rebalancing-plan dict (rebalancer_agent.py:89-101), minus the
environment fields. -/
structure RebalancingPlan where
  old_balances : List Int
  new_balances : List Int
  prices : List Int
  old_total_value : Int
  new_total_value : Int
  new_allocations : List PlanAllocation
  min_allocation_pct : Int
  max_allocation_pct : Int
deriving DecidableEq

/-- `sum(int(bal) * int(price) for bal, price in zip(balances, prices))`. -/
def sumProducts (balances prices : List Int) : Int :=
  ((balances.zip prices).map fun bp => bp.1 * bp.2).sum

/-- `create_rebalancing_plan`: compute both totals, raise `ValueError`
(the spec's `ValuePreservationViolation`) when they differ, otherwise
build the allocations and return the plan; allocation-bound violations
only print warnings (rebalancer_agent.py:83-87) and do not affect the
result. -/
def create_rebalancing_plan (old_balances new_balances prices : List Int)
    (min_allocation_pct max_allocation_pct : Int) :
    Except String RebalancingPlan :=
  let old_total := sumProducts old_balances prices
  let new_total := sumProducts new_balances prices
  if old_total ≠ new_total then
    .error "Portfolio value not preserved!"
  else
    .ok { old_balances := old_balances
          new_balances := new_balances
          prices := prices
          old_total_value := old_total
          new_total_value := new_total
          new_allocations :=
            (new_balances.zip prices).enum.map fun ib =>
              let value := ib.2.1 * ib.2.2
              { token_index := ib.1
                balance := ib.2.1
                value := value
                allocation_pct := pyRound2 (pctOf value new_total) }
          min_allocation_pct := min_allocation_pct
          max_allocation_pct := max_allocation_pct }

/-- The rounding mode named by the specification for `percentage`
(round-half-away-from-zero, two decimals), stated from the spec's words for
comparison with the source's `pyRound2`. -/
def specRoundHalfAwayTwo (q : Rat) : Rat :=
  (((if 0 ≤ q then ⌊q * 100 + 1/2⌋ else -⌊-(q * 100) + 1/2⌋) : Int) : Rat) / 100

/-! ## Canonical serialization (rebalancer_agent.py:225, validator_agent.py:43)

Both agents hash `json.dumps(package, sort_keys=True)`.  The serialization
below renders a `PyVal` with all dict entries recursively sorted by key,
mirroring `sort_keys=True` (CPython compares the key strings; the
string-escape and float-repr details of `json.dumps` are irrelevant to the
claims, which only need the serialization to be a function of the
canonicalized value).  Keys are sorted with an insertion sort by code
point, which agrees with CPython's lexicographic string order. -/

/-- Lexicographic comparison of char lists by code point. -/
def charListLe : List Char → List Char → Bool
  | [], _ => true
  | _ :: _, [] => false
  | c :: cs, d :: ds =>
    if c.toNat < d.toNat then true
    else if d.toNat < c.toNat then false
    else charListLe cs ds

theorem charListLe_total : ∀ a b, charListLe a b = true ∨ charListLe b a = true := by
  intro a
  induction a with
  | nil => intro b; left; rfl
  | cons c cs ih =>
    intro b
    cases b with
    | nil => right; rfl
    | cons d ds =>
      rcases Nat.lt_trichotomy c.toNat d.toNat with h | h | h
      · left; simp [charListLe, h]
      · rcases ih ds with h2 | h2
        · left; simp [charListLe, h, h2]
        · right; simp [charListLe, h, h2]
      · right; simp [charListLe, h]

theorem charListLe_trans :
    ∀ a b c, charListLe a b = true → charListLe b c = true → charListLe a c = true := by
  intro a
  induction a with
  | nil => intro b c _ _; rfl
  | cons x xs ih =>
    intro b c hab hbc
    cases b with
    | nil => simp [charListLe] at hab
    | cons y ys =>
      cases c with
      | nil => simp [charListLe] at hbc
      | cons z zs =>
        simp only [charListLe] at hab hbc ⊢
        split_ifs at hab hbc ⊢ <;>
          first
            | rfl
            | omega
            | exact ih ys zs hab hbc

theorem charListLe_antisymm :
    ∀ a b, charListLe a b = true → charListLe b a = true → a = b := by
  intro a
  induction a with
  | nil =>
    intro b _ hba
    cases b with
    | nil => rfl
    | cons d ds => simp [charListLe] at hba
  | cons c cs ih =>
    intro b hab hba
    cases b with
    | nil => simp [charListLe] at hab
    | cons d ds =>
      rcases Nat.lt_trichotomy c.toNat d.toNat with h | h | h
      · simp [charListLe, h, Nat.lt_asymm h] at hba
      · have hcd : c = d := Char.ext (UInt32.toNat.inj h)
        simp only [charListLe, h, lt_irrefl, if_neg (lt_irrefl _), if_false] at hab hba
        rw [hcd, ih ds hab hba]
      · simp [charListLe, h, Nat.lt_asymm h] at hab

/-- Dict entries ordered by key (the comparison `sort_keys=True` uses). -/
def keyLe (a b : String × PyVal) : Prop := charListLe a.1.data b.1.data = true

instance : DecidableRel keyLe := fun a b =>
  inferInstanceAs (Decidable (charListLe a.1.data b.1.data = true))

instance : IsTotal (String × PyVal) keyLe :=
  ⟨fun a b => charListLe_total a.1.data b.1.data⟩

instance : IsTrans (String × PyVal) keyLe :=
  ⟨fun a b c => charListLe_trans a.1.data b.1.data c.1.data⟩

theorem sizeOf_eq_of_perm {α : Type} [SizeOf α] {l₁ l₂ : List α} (h : l₁.Perm l₂) :
    sizeOf l₁ = sizeOf l₂ := by
  induction h with
  | nil => rfl
  | cons x _ ih => simp [ih]
  | swap x y l => simp; omega
  | trans _ _ ih₁ ih₂ => omega

mutual

/-- `json.dumps(v, sort_keys=True)`: canonical serialization with dict
entries recursively sorted by key. -/
def dumpVal : PyVal → String
  | .str s => "\"" ++ s ++ "\""
  | .int n => toString n
  | .rat q => toString q
  | .bool b => if b then "true" else "false"
  | .pyNone => "null"
  | .list xs => "[" ++ dumpElems xs ++ "]"
  | .dict kvs => "\x7b" ++ dumpEntries (List.insertionSort keyLe kvs) ++ "\x7d"
termination_by v => sizeOf v
decreasing_by
  all_goals simp only [PyVal.list.sizeOf_spec, PyVal.dict.sizeOf_spec]
  · omega
  · rw [sizeOf_eq_of_perm (List.perm_insertionSort keyLe kvs)]; omega

/-- Comma-separated list elements. -/
def dumpElems : List PyVal → String
  | [] => ""
  | [v] => dumpVal v
  | v :: w :: vs => dumpVal v ++ ", " ++ dumpElems (w :: vs)
termination_by l => sizeOf l
decreasing_by all_goals (simp; try omega)

/-- Comma-separated `"key": value` entries. -/
def dumpEntries : List (String × PyVal) → String
  | [] => ""
  | [(k, v)] => "\"" ++ k ++ "\": " ++ dumpVal v
  | (k, v) :: kw :: kvs =>
    "\"" ++ k ++ "\": " ++ dumpVal v ++ ", " ++ dumpEntries (kw :: kvs)
termination_by l => sizeOf l
decreasing_by all_goals (simp; try omega)

end

/-- The string the producer hashes:
`json.dumps(proof_package, sort_keys=True)` at rebalancer_agent.py:225.
SHA-256 itself is a fixed function of this string, so two packages have
equal content hashes exactly when their canonical serializations are equal
strings. -/
def submitProofSerialized (pkg : List (String × PyVal)) : String :=
  dumpVal (.dict pkg)

/-- The string the validator hashes:
`json.dumps(proof_package, sort_keys=True)` at validator_agent.py:43. -/
def validateProofSerialized (pkg : List (String × PyVal)) : String :=
  dumpVal (.dict pkg)

/-! ## Client agent (client_agent.py) -/

/-- Numeric view of a value, for `max(...)` and the `< 50` comparison: a
non-numeric percentage would make the comparison raise; that path is
modelled as the propagated exception. -/
def pyNumOf : PyVal → Option Rat
  | .int n => some (n : Rat)
  | .rat q => some q
  | .bool b => some (if b then 1 else 0)
  | _ => Option.none

/-- `[a["allocation_pct"] for a in allocations]`: `Option.none` models the
`KeyError`/`TypeError` a malformed entry raises out of the method. -/
def extractPcts : List PyVal → Option (List Rat)
  | [] => some []
  | .dict kvs :: rest =>
    match dictGet kvs "allocation_pct" with
    | some v =>
      match pyNumOf v with
      | some q => (extractPcts rest).map (fun l => q :: l)
      | Option.none => Option.none
    | Option.none => Option.none
  | _ :: _ => Option.none

/-- `max(allocation_pcts) if allocation_pcts else 0`. -/
def listMaxQ : List Rat → Rat
  | [] => 0
  | q :: qs => qs.foldl max q

/-- `evaluate_rebalancing_quality(proof_package)` (client_agent.py:75-125):
base 50, +15 for a `proof` key, +10 for `public_inputs`, +15 for
`rebalancing_plan`, +10 for a `new_allocations` key in the plan, +10 when
the allocation list is truthy and its maximal percentage is `< 50`, capped
with `min(score, 100)`.  `Option.none` is an uncaught exception (non-dict
plan, non-list truthy allocation value, malformed allocation entries). -/
def evaluate_rebalancing_quality (pkg : List (String × PyVal)) : Option Nat :=
  let s1 := 50
  let s2 := if (dictGet pkg "proof").isSome then s1 + 15 else s1
  let s3 := if (dictGet pkg "public_inputs").isSome then s2 + 10 else s2
  let s4 := if (dictGet pkg "rebalancing_plan").isSome then s3 + 15 else s3
  match planEntries pkg with
  | Option.none => Option.none
  | some plan =>
    let s5 := if (dictGet plan "new_allocations").isSome then s4 + 10 else s4
    match dictGetD plan "new_allocations" (.list []) with
    | .list allocs =>
      if allocs.isEmpty then some (min s5 100)
      else
        match extractPcts allocs with
        | Option.none => Option.none
        | some pcts =>
          let s6 := if listMaxQ pcts < 50 then s5 + 10 else s5
          some (min s6 100)
    | other => if truthy other then Option.none else some (min s5 100)

/-- The additive rubric as the specification claim words it, for comparison
with the source's `evaluate_rebalancing_quality`: the diversification bonus
applies whenever no single allocation exceeds 50 percent. -/
def specQualityScore (pkg : List (String × PyVal)) : Option Nat :=
  match planEntries pkg with
  | Option.none => Option.none
  | some plan =>
    match dictGetD plan "new_allocations" (.list []) with
    | .list allocs =>
      match extractPcts allocs with
      | some pcts =>
        some (min (50 + (if (dictGet pkg "proof").isSome then 15 else 0)
            + (if (dictGet pkg "public_inputs").isSome then 10 else 0)
            + (if (dictGet pkg "rebalancing_plan").isSome then 15 else 0)
            + (if (dictGet plan "new_allocations").isSome then 10 else 0)
            + (if ∀ q ∈ pcts, q ≤ 50 then 10 else 0)) 100)
      | Option.none => Option.none
    | _ => Option.none

/-- A feedback record (client_agent.py:57-64); `timestamp` is
`int(time.time())` at submission. -/
structure FeedbackRecord where
  client_id : Int
  server_id : Int
  score : Int
  comment : String
  timestamp : Int
deriving DecidableEq

/-- The reputation dict (client_agent.py:148-160). -/
structure ReputationInfo where
  server_id : Int
  feedback_count : Nat
  average_score : Rat
  last_feedback : Option FeedbackRecord
deriving DecidableEq

/-- `check_rebalancer_reputation(server_agent_id)` over the accumulated
`feedback_history` (client_agent.py:127-165): filter by server id; with
matching records report their number, the mean score (float division,
idealized as the exact rational) and `server_feedback[-1]`; otherwise
count 0, average 0 and no record. -/
def check_rebalancer_reputation (feedback_history : List FeedbackRecord)
    (server_agent_id : Int) : ReputationInfo :=
  let server_feedback := feedback_history.filter
    (fun f => f.server_id = server_agent_id)
  if server_feedback.isEmpty then
    { server_id := server_agent_id
      feedback_count := 0
      average_score := 0
      last_feedback := Option.none }
  else
    { server_id := server_agent_id
      feedback_count := server_feedback.length
      average_score :=
        ((server_feedback.map (fun f => f.score)).sum : Rat) / server_feedback.length
      last_feedback := server_feedback.getLast? }

/-! ## Helper lemmas -/

theorem verifyProofStructure_le (proof publicInputs : PyVal) :
    verifyProofStructure proof publicInputs ≤ 100 := by
  unfold verifyProofStructure
  repeat' split
  all_goals omega

theorem verifyRebalancingLogic_cases (pkg : List (String × PyVal)) :
    verifyRebalancingLogic pkg = 0 ∨ verifyRebalancingLogic pkg = 30 ∨
    verifyRebalancingLogic pkg = 50 ∨ verifyRebalancingLogic pkg = 70 ∨
    verifyRebalancingLogic pkg = 100 := by
  unfold verifyRebalancingLogic
  dsimp only
  repeat' split
  all_goals omega

theorem isStrVal_eq_true {v : PyVal} {lab : String} :
    isStrVal v lab = true ↔ v = .str lab := by
  cases v <;> simp [isStrVal]

theorem isLen3List_eq_true {v : PyVal} :
    isLen3List v = true ↔ ∃ xs, v = .list xs ∧ xs.length = 3 := by
  cases v <;> simp [isLen3List]

theorem isListVal_eq_true {v : PyVal} :
    isListVal v = true ↔ ∃ xs, v = .list xs := by
  cases v <;> simp [isListVal]

theorem dictGetD_of_get {kvs : List (String × PyVal)} {k : String} {v : PyVal}
    (h : dictGet kvs k = some v) (d : PyVal) : dictGetD kvs k d = v := by
  simp [dictGetD, h]

/-- Claim C2: for every proof dict and public-inputs value the structure
stage returns one of 0, 50, 60, 100, deciding by the first failing tier:
0 when a required field is missing; 50 when the protocol or curve
identifier is wrong; then — the ordered-sequence check on the public
inputs (a non-list scores 50 at this point) — 60 when a point array is
not a length-3 list; 100 when every check passes.  It is a pure function
of its two arguments by construction. -/
theorem verify_proof_structure_tiers (kvs : List (String × PyVal)) (publicInputs : PyVal) :
    (verifyProofStructure (.dict kvs) publicInputs = 0 ∨
     verifyProofStructure (.dict kvs) publicInputs = 50 ∨
     verifyProofStructure (.dict kvs) publicInputs = 60 ∨
     verifyProofStructure (.dict kvs) publicInputs = 100)
    ∧ ((¬ ∀ k ∈ requiredKeys, (dictGet kvs k).isSome = true) →
        verifyProofStructure (.dict kvs) publicInputs = 0)
    ∧ ((∀ k ∈ requiredKeys, (dictGet kvs k).isSome = true) →
        ¬ (dictGet kvs "protocol" = some (.str "groth16") ∧
           dictGet kvs "curve" = some (.str "bn128")) →
        verifyProofStructure (.dict kvs) publicInputs = 50)
    ∧ ((∀ k ∈ requiredKeys, (dictGet kvs k).isSome = true) →
        dictGet kvs "protocol" = some (.str "groth16") →
        dictGet kvs "curve" = some (.str "bn128") →
        (∃ xs, publicInputs = .list xs) →
        ¬ ((∃ xs, dictGet kvs "pi_a" = some (.list xs) ∧ xs.length = 3) ∧
           (∃ xs, dictGet kvs "pi_b" = some (.list xs) ∧ xs.length = 3) ∧
           (∃ xs, dictGet kvs "pi_c" = some (.list xs) ∧ xs.length = 3)) →
        verifyProofStructure (.dict kvs) publicInputs = 60)
    ∧ ((∀ k ∈ requiredKeys, (dictGet kvs k).isSome = true) →
        dictGet kvs "protocol" = some (.str "groth16") →
        dictGet kvs "curve" = some (.str "bn128") →
        (∃ xs, publicInputs = .list xs) →
        (∃ xs, dictGet kvs "pi_a" = some (.list xs) ∧ xs.length = 3) →
        (∃ xs, dictGet kvs "pi_b" = some (.list xs) ∧ xs.length = 3) →
        (∃ xs, dictGet kvs "pi_c" = some (.list xs) ∧ xs.length = 3) →
        verifyProofStructure (.dict kvs) publicInputs = 100) := by
  refine ⟨?_, ?_, ?_, ?_, ?_⟩
  · unfold verifyProofStructure
    repeat' split
    all_goals omega
  · intro h
    cases hb : (requiredKeys.all fun k => (dictGet kvs k).isSome) with
    | false => simp [verifyProofStructure, hb]
    | true => exact absurd (fun k hk => List.all_eq_true.mp hb k hk) h
  · intro h1 h2
    have hall : (requiredKeys.all fun k => (dictGet kvs k).isSome) = true :=
      List.all_eq_true.mpr h1
    obtain ⟨vp, hvp⟩ := Option.isSome_iff_exists.mp
      (h1 "protocol" (by simp [requiredKeys]))
    obtain ⟨vc, hvc⟩ := Option.isSome_iff_exists.mp
      (h1 "curve" (by simp [requiredKeys]))
    have hfail : (isStrVal (dictGetD kvs "protocol" .pyNone) "groth16"
        && isStrVal (dictGetD kvs "curve" .pyNone) "bn128") = false := by
      rw [dictGetD_of_get hvp, dictGetD_of_get hvc]
      cases hp : isStrVal vp "groth16" with
      | false => simp [hp]
      | true =>
        cases hc : isStrVal vc "bn128" with
        | false => simp [hc]
        | true =>
          exact absurd ⟨by rw [hvp, isStrVal_eq_true.mp hp],
            by rw [hvc, isStrVal_eq_true.mp hc]⟩ h2
    simp [verifyProofStructure, hall, hfail]
  · intro h1 hp hc hpub h60
    have hall : (requiredKeys.all fun k => (dictGet kvs k).isSome) = true :=
      List.all_eq_true.mpr h1
    have hok : (isStrVal (dictGetD kvs "protocol" .pyNone) "groth16"
        && isStrVal (dictGetD kvs "curve" .pyNone) "bn128") = true := by
      rw [dictGetD_of_get hp, dictGetD_of_get hc]
      simp [isStrVal]
    obtain ⟨xs, hxs⟩ := hpub
    have hlist : isListVal publicInputs = true := by
      rw [hxs]; rfl
    have hfail : (isLen3List (dictGetD kvs "pi_a" .pyNone)
        && isLen3List (dictGetD kvs "pi_b" .pyNone)
        && isLen3List (dictGetD kvs "pi_c" .pyNone)) = false := by
      obtain ⟨va, hva⟩ := Option.isSome_iff_exists.mp (h1 "pi_a" (by simp [requiredKeys]))
      obtain ⟨vb, hvb⟩ := Option.isSome_iff_exists.mp (h1 "pi_b" (by simp [requiredKeys]))
      obtain ⟨vcc, hvcc⟩ := Option.isSome_iff_exists.mp (h1 "pi_c" (by simp [requiredKeys]))
      rw [dictGetD_of_get hva, dictGetD_of_get hvb, dictGetD_of_get hvcc]
      cases ha : isLen3List va with
      | false => simp [ha]
      | true =>
      cases hb : isLen3List vb with
      | false => simp [hb]
      | true =>
      cases hcc : isLen3List vcc with
      | false => simp [hcc]
      | true =>
      exfalso
      apply h60
      obtain ⟨ya, hya, hla⟩ := isLen3List_eq_true.mp ha
      obtain ⟨yb, hyb, hlb⟩ := isLen3List_eq_true.mp hb
      obtain ⟨yc, hyc, hlc⟩ := isLen3List_eq_true.mp hcc
      exact ⟨⟨ya, by rw [hva, hya], hla⟩, ⟨yb, by rw [hvb, hyb], hlb⟩,
        ⟨yc, by rw [hvcc, hyc], hlc⟩⟩
    simp [verifyProofStructure, hall, hok, hlist, hfail]
  · intro h1 hp hc hpub ha hb hcc
    have hall : (requiredKeys.all fun k => (dictGet kvs k).isSome) = true :=
      List.all_eq_true.mpr h1
    have hok : (isStrVal (dictGetD kvs "protocol" .pyNone) "groth16"
        && isStrVal (dictGetD kvs "curve" .pyNone) "bn128") = true := by
      rw [dictGetD_of_get hp, dictGetD_of_get hc]
      simp [isStrVal]
    obtain ⟨xs, hxs⟩ := hpub
    have hlist : isListVal publicInputs = true := by rw [hxs]; rfl
    obtain ⟨ya, hya, hla⟩ := ha
    obtain ⟨yb, hyb, hlb⟩ := hb
    obtain ⟨yc, hyc, hlc⟩ := hcc
    have hok3 : (isLen3List (dictGetD kvs "pi_a" .pyNone)
        && isLen3List (dictGetD kvs "pi_b" .pyNone)
        && isLen3List (dictGetD kvs "pi_c" .pyNone)) = true := by
      rw [dictGetD_of_get hya, dictGetD_of_get hyb, dictGetD_of_get hyc]
      simp [isLen3List, hla, hlb, hlc]
    simp [verifyProofStructure, hall, hok, hlist, hok3]

/-- A structurally complete groth16/bn128 proof dict used as a concrete
instance in several witnesses. -/
def goodProofEntries : List (String × PyVal) :=
  [("pi_a", .list [.str "1", .str "2", .str "1"]),
   ("pi_b", .list [.list [.str "1", .str "2"], .list [.str "3", .str "4"],
                   .list [.str "1", .str "0"]]),
   ("pi_c", .list [.str "5", .str "6", .str "1"]),
   ("protocol", .str "groth16"),
   ("curve", .str "bn128")]

/-- Witness for C2: the completed tiers on a concrete well-formed proof. -/
theorem verify_proof_structure_tiers_witness :
    verifyProofStructure (.dict goodProofEntries) (.list [.str "375000"]) = 100 :=
  (verify_proof_structure_tiers goodProofEntries (.list [.str "375000"])).2.2.2.2
    (by intro k hk; fin_cases hk <;> rfl)
    (by rfl) (by rfl) ⟨[.str "375000"], rfl⟩
    ⟨[.str "1", .str "2", .str "1"], by rfl, by rfl⟩
    ⟨[.list [.str "1", .str "2"], .list [.str "3", .str "4"], .list [.str "1", .str "0"]],
      by rfl, by rfl⟩
    ⟨[.str "5", .str "6", .str "1"], by rfl, by rfl⟩

/-- Claim C4 (amended): the logic stage is a total function into the five
discrete scores 0, 30, 50, 70, 100 — the 50 arises exactly on the
exception path for a malformed plan, which the original four-value claim
omitted.  Purity holds by construction: the embedding is a function of the
package alone. -/
theorem verify_rebalancing_logic_range (pkg : List (String × PyVal)) :
    verifyRebalancingLogic pkg ∈ ([0, 30, 50, 70, 100] : List Nat) := by
  rcases verifyRebalancingLogic_cases pkg with h | h | h | h | h <;> simp [h]

/-- A package whose plan carries a non-numeric balance string: recomputing
the totals raises `ValueError` in the source, the caught-exception path. -/
def logicBadPlanPkg : List (String × PyVal) :=
  [("rebalancing_plan", .dict
    [("old_balances", .list [.str "abc"]),
     ("new_balances", .list [.str "1"]),
     ("prices", .list [.str "1"])])]

/-- Counterexample to C4 as stated: a malformed plan scores 50, which is
none of 0, 30, 70, 100. -/
theorem verify_rebalancing_logic_range_counterexample :
    verifyRebalancingLogic logicBadPlanPkg = 50
    ∧ ¬ (verifyRebalancingLogic logicBadPlanPkg = 0 ∨
         verifyRebalancingLogic logicBadPlanPkg = 30 ∨
         verifyRebalancingLogic logicBadPlanPkg = 70 ∨
         verifyRebalancingLogic logicBadPlanPkg = 100) := by
  refine ⟨by rfl, ?_⟩
  intro h
  rcases h with h | h | h | h <;> simp [verifyRebalancingLogic] at h <;> cases h

/-- Claim C3 (amended): for a package whose embedded plan yields parseable
bounds and list-valued balance/price arrays, the logic stage returns 0
when any of the three arrays is empty (this tier precedes the others and
was missing from the claim); with all three nonempty it returns 50 when a
balance or price fails integer conversion (the exception path), 30 when
the recomputed totals differ, 70 when the totals agree but some asset's
percentage of the new total leaves `[minPct, maxPct]`, and 100 when the
totals agree and every asset is within bounds. -/
theorem verify_rebalancing_logic_tiers
    (pkg plan : List (String × PyVal)) (obs nbs ps : List PyVal) (minPct maxPct : Int)
    (hplan : planEntries pkg = some plan)
    (hmin : pyIntOf (dictGetD plan "min_allocation_pct" (.str "0")) = some minPct)
    (hmax : pyIntOf (dictGetD plan "max_allocation_pct" (.str "100")) = some maxPct)
    (hob : dictGetD plan "old_balances" (.list []) = .list obs)
    (hnb : dictGetD plan "new_balances" (.list []) = .list nbs)
    (hps : dictGetD plan "prices" (.list []) = .list ps) :
    ((obs = [] ∨ nbs = [] ∨ ps = []) → verifyRebalancingLogic pkg = 0)
    ∧ (obs ≠ [] → nbs ≠ [] → ps ≠ [] →
        ((parsePairs obs ps = Option.none ∨ parsePairs nbs ps = Option.none) →
          verifyRebalancingLogic pkg = 50)
        ∧ (∀ oldPairs newPairs,
            parsePairs obs ps = some oldPairs →
            parsePairs nbs ps = some newPairs →
            ((oldPairs.map fun bp => bp.1 * bp.2).sum ≠
                (newPairs.map fun bp => bp.1 * bp.2).sum →
              verifyRebalancingLogic pkg = 30)
            ∧ ((oldPairs.map fun bp => bp.1 * bp.2).sum =
                  (newPairs.map fun bp => bp.1 * bp.2).sum →
                (∃ bp ∈ newPairs,
                  pctOf (bp.1 * bp.2) ((newPairs.map fun bp => bp.1 * bp.2).sum) < (minPct : Rat)
                  ∨ (maxPct : Rat) <
                      pctOf (bp.1 * bp.2) ((newPairs.map fun bp => bp.1 * bp.2).sum)) →
                verifyRebalancingLogic pkg = 70)
            ∧ ((oldPairs.map fun bp => bp.1 * bp.2).sum =
                  (newPairs.map fun bp => bp.1 * bp.2).sum →
                (∀ bp ∈ newPairs,
                  (minPct : Rat) ≤ pctOf (bp.1 * bp.2) ((newPairs.map fun bp => bp.1 * bp.2).sum)
                  ∧ pctOf (bp.1 * bp.2) ((newPairs.map fun bp => bp.1 * bp.2).sum) ≤ (maxPct : Rat)) →
                verifyRebalancingLogic pkg = 100))) := by
  constructor
  · intro h
    have h0 : (truthy (.list obs) && truthy (.list nbs) && truthy (.list ps)) = false := by
      rcases h with h | h | h <;> subst h <;> simp [truthy]
    simp only [verifyRebalancingLogic, hplan, hmin, hmax, hob, hnb, hps]
    simp [h0]
  · intro ho hn hp
    have h1 : (truthy (.list obs) && truthy (.list nbs) && truthy (.list ps)) = true := by
      simp [truthy, ho, hn, hp]
    constructor
    · intro hnone
      simp only [verifyRebalancingLogic, hplan, hmin, hmax, hob, hnb, hps]
      simp only [h1, Bool.not_true, Bool.false_eq_true, not_false_eq_true, if_neg,
        not_true_eq_false, if_false]
      rcases hnone with h | h
      · rw [h]
      · rw [h]
        cases parsePairs obs ps <;> rfl
    · intro oldPairs newPairs hOld hNew
      have hbase : verifyRebalancingLogic pkg =
          (if (oldPairs.map fun bp => bp.1 * bp.2).sum ≠
              (newPairs.map fun bp => bp.1 * bp.2).sum then 30
           else if newPairs.any
              (fun bp =>
                decide (pctOf (bp.1 * bp.2) ((newPairs.map fun bp => bp.1 * bp.2).sum) < (minPct : Rat))
                || decide ((maxPct : Rat) <
                     pctOf (bp.1 * bp.2) ((newPairs.map fun bp => bp.1 * bp.2).sum))) then 70
           else 100) := by
        simp only [verifyRebalancingLogic, hplan, hmin, hmax, hob, hnb, hps, hOld, hNew]
        simp only [h1, Bool.not_true, Bool.false_eq_true, not_false_eq_true, if_neg,
          not_true_eq_false, if_false]
      refine ⟨?_, ?_, ?_⟩
      · intro hne
        rw [hbase, if_pos hne]
      · intro heq hex
        have hany : (newPairs.any
            (fun bp =>
              decide (pctOf (bp.1 * bp.2) ((newPairs.map fun bp => bp.1 * bp.2).sum) < (minPct : Rat))
              || decide ((maxPct : Rat) <
                   pctOf (bp.1 * bp.2) ((newPairs.map fun bp => bp.1 * bp.2).sum)))) = true := by
          rw [List.any_eq_true]
          obtain ⟨bp, hmem, hout⟩ := hex
          refine ⟨bp, hmem, ?_⟩
          simp only [Bool.or_eq_true, decide_eq_true_eq]
          exact hout
        rw [hbase, if_neg (by simpa using heq), if_pos hany]
      · intro heq hall
        have hany : (newPairs.any
            (fun bp =>
              decide (pctOf (bp.1 * bp.2) ((newPairs.map fun bp => bp.1 * bp.2).sum) < (minPct : Rat))
              || decide ((maxPct : Rat) <
                   pctOf (bp.1 * bp.2) ((newPairs.map fun bp => bp.1 * bp.2).sum)))) = false := by
          rw [Bool.eq_false_iff]
          intro hc
          obtain ⟨bp, hmem, hout⟩ := List.any_eq_true.mp hc
          obtain ⟨hlo, hhi⟩ := hall bp hmem
          rcases Bool.or_eq_true_iff.mp hout with h | h
          · exact absurd (of_decide_eq_true h) (not_lt.mpr hlo)
          · exact absurd (of_decide_eq_true h) (not_lt.mpr hhi)
        rw [hbase, if_neg (by simpa using heq), if_neg (by simp [hany])]

/-- The e2e scenario plan: old `[1000,1000,1000,750]`,
new `[800,800,1200,950]`, prices all 100, bounds 10/40. -/
def goodPlanEntries : List (String × PyVal) :=
  [("old_balances", .list [.str "1000", .str "1000", .str "1000", .str "750"]),
   ("new_balances", .list [.str "800", .str "800", .str "1200", .str "950"]),
   ("prices", .list [.str "100", .str "100", .str "100", .str "100"]),
   ("min_allocation_pct", .str "10"),
   ("max_allocation_pct", .str "40")]

/-- A complete well-formed proof package for the e2e scenario. -/
def goodPackage : List (String × PyVal) :=
  [("proof", .dict goodProofEntries),
   ("public_inputs", .list [.str "375000"]),
   ("rebalancing_plan", .dict goodPlanEntries)]

/-- Witness for C3: the e2e scenario package passes the logic stage. -/
theorem verify_rebalancing_logic_tiers_witness :
    verifyRebalancingLogic goodPackage = 100 :=
  (((verify_rebalancing_logic_tiers goodPackage goodPlanEntries
      [.str "1000", .str "1000", .str "1000", .str "750"]
      [.str "800", .str "800", .str "1200", .str "950"]
      [.str "100", .str "100", .str "100", .str "100"] 10 40
      rfl rfl rfl rfl rfl rfl).2
    (List.cons_ne_nil _ _) (List.cons_ne_nil _ _) (List.cons_ne_nil _ _)).2
    [(1000, 100), (1000, 100), (1000, 100), (750, 100)]
    [(800, 100), (800, 100), (1200, 100), (950, 100)]
    rfl rfl).2.2 rfl (by
      intro bp hbp
      fin_cases hbp <;> constructor <;> norm_num [pctOf])

/-- Counterexample to C3 as stated: with the plan absent every array
defaults to the empty list, the recomputed totals trivially agree and no
asset is out of bounds, yet the stage returns 0, not 100. -/
theorem verify_rebalancing_logic_tiers_counterexample :
    planEntries ([] : List (String × PyVal)) = some []
    ∧ parsePairs ([] : List PyVal) [] = some []
    ∧ ((([] : List (Int × Int)).map fun bp => bp.1 * bp.2).sum =
        (([] : List (Int × Int)).map fun bp => bp.1 * bp.2).sum)
    ∧ (∀ bp ∈ ([] : List (Int × Int)),
        (0 : Rat) ≤ pctOf (bp.1 * bp.2) 0 ∧ pctOf (bp.1 * bp.2) 0 ≤ 100)
    ∧ verifyRebalancingLogic [] = 0 ∧ (0 : Nat) ≠ 100 :=
  ⟨rfl, rfl, rfl, by simp, rfl, by decide⟩

/-- Claim C1: with a truthy proof and truthy public inputs the validator
reaches the aggregation step; the report carries the three stage scores,
`overall = floor(0.2*structure + 0.5*crypto + 0.3*logic)` (CPython's float
truncation agrees with the exact floor on every reachable score triple),
`proof_valid = (crypto == 100)`, `meets_constraints = (logic >= 80)`, and
the result's `is_valid` flag is `overall >= 70` with `score = overall`; in
particular a crypto score of 0 caps the overall score at 50 and forces
`proof_valid = False`. -/
theorem validate_proof_aggregate (pkg : List (String × PyVal)) (crypto : CryptoOutcome)
    (hp : truthy (dictGetD pkg "proof" .pyNone) = true)
    (hq : truthy (dictGetD pkg "public_inputs" .pyNone) = true) :
    ∃ rep : ValidationReport,
      validate_proof (.package pkg) crypto =
        .success (decide (70 ≤ rep.overall_score)) rep.overall_score rep
      ∧ rep.structure_score =
          verifyProofStructure (dictGetD pkg "proof" .pyNone)
            (dictGetD pkg "public_inputs" .pyNone)
      ∧ rep.cryptographic_score = verifyProofCryptography crypto
      ∧ rep.logic_score = verifyRebalancingLogic pkg
      ∧ rep.overall_score =
          ⌊0.2 * (rep.structure_score : Rat) + 0.5 * (rep.cryptographic_score : Rat)
            + 0.3 * (rep.logic_score : Rat)⌋₊
      ∧ rep.proof_valid = decide (rep.cryptographic_score = 100)
      ∧ rep.meets_constraints = decide (80 ≤ rep.logic_score)
      ∧ (rep.cryptographic_score = 0 →
          rep.overall_score ≤ 50 ∧ rep.proof_valid = false) := by
  set s := verifyProofStructure (dictGetD pkg "proof" .pyNone)
    (dictGetD pkg "public_inputs" .pyNone) with hs
  set c := verifyProofCryptography crypto with hc
  set l := verifyRebalancingLogic pkg with hl
  refine ⟨⟨s, c, l, (2 * s + 5 * c + 3 * l) / 10, decide (c = 100), decide (80 ≤ l)⟩,
    ?_, rfl, rfl, rfl, ?_, rfl, rfl, ?_⟩
  · show validateLoaded pkg crypto = _
    unfold validateLoaded
    dsimp only
    rw [if_neg (by simp [hp, hq])]
  · show (2 * s + 5 * c + 3 * l) / 10 = _
    have harith : (0.2 * (s : Rat) + 0.5 * (c : Rat) + 0.3 * (l : Rat)) =
        ((2 * s + 5 * c + 3 * l : Nat) : Rat) / ((10 : Nat) : Rat) := by
      push_cast
      ring
    rw [harith, Nat.floor_div_eq_div]
  · intro hc0
    dsimp only at hc0 ⊢
    have hsle : s ≤ 100 := by
      have h := verifyProofStructure_le (dictGetD pkg "proof" .pyNone)
        (dictGetD pkg "public_inputs" .pyNone)
      rw [← hs] at h
      exact h
    have hlle : l ≤ 100 := by
      rcases verifyRebalancingLogic_cases pkg with h | h | h | h | h <;>
        (rw [← hl] at h; omega)
    refine ⟨by omega, ?_⟩
    show decide (c = 100) = false
    simp [hc0]

/-- Witness for C1: the e2e package with a verifying proof. -/
theorem validate_proof_aggregate_witness :
    ∃ rep : ValidationReport,
      validate_proof (.package goodPackage) .verified =
        .success (decide (70 ≤ rep.overall_score)) rep.overall_score rep
      ∧ rep.structure_score =
          verifyProofStructure (dictGetD goodPackage "proof" .pyNone)
            (dictGetD goodPackage "public_inputs" .pyNone)
      ∧ rep.cryptographic_score = verifyProofCryptography .verified
      ∧ rep.logic_score = verifyRebalancingLogic goodPackage
      ∧ rep.overall_score =
          ⌊0.2 * (rep.structure_score : Rat) + 0.5 * (rep.cryptographic_score : Rat)
            + 0.3 * (rep.logic_score : Rat)⌋₊
      ∧ rep.proof_valid = decide (rep.cryptographic_score = 100)
      ∧ rep.meets_constraints = decide (80 ≤ rep.logic_score)
      ∧ (rep.cryptographic_score = 0 →
          rep.overall_score ≤ 50 ∧ rep.proof_valid = false) :=
  validate_proof_aggregate goodPackage .verified (by rfl) (by rfl)

/-- Claim C5: `create_rebalancing_plan` raises exactly when the two totals
differ (and then produces no plan); with equal totals it always returns a
plan, for every choice of allocation bounds — bound violations never make
plan construction fail. -/
theorem create_plan_value_preservation (oldB newB prices : List Int) (minP maxP : Int) :
    ((∃ e, create_rebalancing_plan oldB newB prices minP maxP = .error e) ↔
      sumProducts oldB prices ≠ sumProducts newB prices)
    ∧ (sumProducts oldB prices = sumProducts newB prices →
        ∃ plan, create_rebalancing_plan oldB newB prices minP maxP = .ok plan)
    ∧ (∀ minP' maxP',
        (∃ plan, create_rebalancing_plan oldB newB prices minP maxP = .ok plan) ↔
        (∃ plan, create_rebalancing_plan oldB newB prices minP' maxP' = .ok plan)) := by
  refine ⟨⟨?_, ?_⟩, ?_, ?_⟩
  · rintro ⟨e, he⟩ heq
    unfold create_rebalancing_plan at he
    dsimp only at he
    rw [if_neg (fun hne => hne heq)] at he
    cases he
  · intro hne
    exact ⟨_, by unfold create_rebalancing_plan; dsimp only; rw [if_pos hne]⟩
  · intro heq
    exact ⟨_, by unfold create_rebalancing_plan; dsimp only; rw [if_neg (fun hne => hne heq)]⟩
  · intro minP' maxP'
    by_cases heq : sumProducts oldB prices = sumProducts newB prices
    · constructor <;> intro _ <;>
        exact ⟨_, by
          unfold create_rebalancing_plan
          dsimp only
          rw [if_neg (fun hne => hne heq)]⟩
    · constructor <;> rintro ⟨plan, hplan⟩ <;>
        · unfold create_rebalancing_plan at hplan
          dsimp only at hplan
          rw [if_pos heq] at hplan
          cases hplan

/-- Witness for C5: the e2e inputs build a plan; shrinking one balance by
one unit makes construction fail. -/
theorem create_plan_value_preservation_witness :
    (∃ plan, create_rebalancing_plan [1000, 1000, 1000, 750] [800, 800, 1200, 950]
        [100, 100, 100, 100] 10 40 = .ok plan)
    ∧ (∃ e, create_rebalancing_plan [1000] [999] [100] 10 40 = .error e) :=
  ⟨(create_plan_value_preservation [1000, 1000, 1000, 750] [800, 800, 1200, 950]
      [100, 100, 100, 100] 10 40).2.1 (by decide),
   (create_plan_value_preservation [1000] [999] [100] 10 40).1.mpr (by decide)⟩

theorem roundHalfToEven_nearest (q : Rat) :
    |q - (roundHalfToEven q : Rat)| ≤ 1/2
    ∧ (|q - (roundHalfToEven q : Rat)| = 1/2 → roundHalfToEven q % 2 = 0) := by
  have hfl : ((⌊q⌋ : Int) : Rat) ≤ q := Int.floor_le q
  have hfu : q < ((⌊q⌋ : Int) : Rat) + 1 := Int.lt_floor_add_one q
  unfold roundHalfToEven
  dsimp only
  split_ifs with h1 h2 h3
  · refine ⟨?_, ?_⟩
    · rw [abs_of_nonneg (by linarith)]
      linarith
    · intro habs
      rw [abs_of_nonneg (by linarith)] at habs
      linarith
  · refine ⟨?_, ?_⟩
    · rw [abs_of_nonpos (by push_cast; linarith)]
      push_cast
      linarith
    · intro habs
      rw [abs_of_nonpos (by push_cast; linarith)] at habs
      push_cast at habs
      linarith
  · have hr : q - ((⌊q⌋ : Int) : Rat) = 1/2 := le_antisymm (not_lt.mp h2) (not_lt.mp h1)
    exact ⟨by rw [abs_of_nonneg (by linarith)]; linarith, fun _ => h3⟩
  · have hr : q - ((⌊q⌋ : Int) : Rat) = 1/2 := le_antisymm (not_lt.mp h2) (not_lt.mp h1)
    refine ⟨?_, fun _ => by omega⟩
    rw [abs_of_nonpos (by push_cast; linarith)]
    push_cast
    linarith

theorem pyRound2_nearest (q : Rat) :
    ∃ n : Int, pyRound2 q = (n : Rat) / 100
    ∧ |q - (n : Rat) / 100| ≤ 1 / 200
    ∧ (|q - (n : Rat) / 100| = 1 / 200 → n % 2 = 0) := by
  obtain ⟨h1, h2⟩ := roundHalfToEven_nearest (q * 100)
  refine ⟨roundHalfToEven (q * 100), rfl, ?_, ?_⟩
  · have heq : q - (roundHalfToEven (q * 100) : Rat) / 100 =
        (q * 100 - (roundHalfToEven (q * 100) : Rat)) / 100 := by ring
    rw [heq, abs_div, abs_of_pos (by norm_num : (0 : Rat) < 100)]
    linarith
  · intro habs
    apply h2
    have heq : q - (roundHalfToEven (q * 100) : Rat) / 100 =
        (q * 100 - (roundHalfToEven (q * 100) : Rat)) / 100 := by ring
    rw [heq, abs_div, abs_of_pos (by norm_num : (0 : Rat) < 100)] at habs
    linarith

/-- Claim C7 (amended): in every plan built with a positive new total
value, each allocation's stored percentage is `value / newTotal * 100`
rounded to two decimals with CPython `round` semantics — the nearest
multiple of 1/100, exact ties going to the multiple with an even hundredth
(round-half-to-even), not away from zero. -/
theorem create_plan_pct_rounding (oldB newB prices : List Int) (minP maxP : Int)
    (plan : RebalancingPlan)
    (h : create_rebalancing_plan oldB newB prices minP maxP = .ok plan)
    (hpos : 0 < plan.new_total_value) :
    ∀ a ∈ plan.new_allocations, ∃ n : Int,
      a.allocation_pct = (n : Rat) / 100
      ∧ |(a.value : Rat) / (plan.new_total_value : Rat) * 100 - (n : Rat) / 100| ≤ 1 / 200
      ∧ (|(a.value : Rat) / (plan.new_total_value : Rat) * 100 - (n : Rat) / 100| = 1 / 200 →
          n % 2 = 0) := by
  unfold create_rebalancing_plan at h
  dsimp only at h
  split_ifs at h with hne
  injection h with h
  have hT : plan.new_total_value = sumProducts newB prices := by rw [← h]
  have hA : plan.new_allocations =
      (newB.zip prices).enum.map (fun ib =>
        { token_index := ib.1, balance := ib.2.1, value := ib.2.1 * ib.2.2,
          allocation_pct :=
            pyRound2 (pctOf (ib.2.1 * ib.2.2) (sumProducts newB prices)) }) := by
    rw [← h]
  rw [hT] at hpos
  rw [hA, hT]
  intro a ha
  obtain ⟨ib, hib, rfl⟩ := List.mem_map.mp ha
  show ∃ n : Int,
      pyRound2 (pctOf (ib.2.1 * ib.2.2) (sumProducts newB prices)) = (n : Rat) / 100
      ∧ |((ib.2.1 * ib.2.2 : Int) : Rat) / ((sumProducts newB prices : Int) : Rat) * 100
          - (n : Rat) / 100| ≤ 1 / 200
      ∧ (|((ib.2.1 * ib.2.2 : Int) : Rat) / ((sumProducts newB prices : Int) : Rat) * 100
          - (n : Rat) / 100| = 1 / 200 → n % 2 = 0)
  rw [pctOf, if_pos hpos]
  exact pyRound2_nearest (((ib.2.1 * ib.2.2 : Int) : Rat) / ((sumProducts newB prices : Int) : Rat) * 100)

/-- The plan built from balances `[1, 31]` at unit prices: token 0 holds
1/32 of the value, whose percentage 3.125 is an exact rounding tie. -/
def plan0 : RebalancingPlan :=
  { old_balances := [1, 31]
    new_balances := [1, 31]
    prices := [1, 1]
    old_total_value := 32
    new_total_value := 32
    new_allocations :=
      [{ token_index := 0, balance := 1, value := 1,
         allocation_pct := pyRound2 (pctOf 1 32) },
       { token_index := 1, balance := 31, value := 31,
         allocation_pct := pyRound2 (pctOf 31 32) }]
    min_allocation_pct := 10
    max_allocation_pct := 40 }

theorem plan0_create :
    create_rebalancing_plan [1, 31] [1, 31] [1, 1] 10 40 = .ok plan0 := rfl

/-- Counterexample to C7 as stated: token 0's exact percentage is
3.125; CPython `round(3.125, 2)` stores 3.12 (tie to even), while
round-half-away-from-zero would give 3.13. -/
theorem create_plan_pct_rounding_counterexample :
    plan0.new_allocations.head?.map PlanAllocation.allocation_pct = some (78 / 25)
    ∧ specRoundHalfAwayTwo ((1 : Rat) / 32 * 100) = 313 / 100
    ∧ (78 / 25 : Rat) ≠ 313 / 100 := by
  have hpct : pctOf 1 32 = 25 / 8 := by
    rw [pctOf, if_pos (by norm_num)]
    norm_num
  have hfloor : (⌊(25 / 8 : Rat) * 100⌋ : Int) = 312 := by norm_num
  have hround : roundHalfToEven ((25 / 8 : Rat) * 100) = 312 := by
    rw [roundHalfToEven]
    try dsimp only
    rw [hfloor]
    norm_num
  refine ⟨?_, ?_, by norm_num⟩
  · show some (PlanAllocation.allocation_pct
      { token_index := 0, balance := 1, value := 1,
        allocation_pct := pyRound2 (pctOf 1 32) }) = some (78 / 25)
    rw [Option.some_inj]
    show pyRound2 (pctOf 1 32) = 78 / 25
    rw [hpct, pyRound2, hround]
    norm_num
  · rw [specRoundHalfAwayTwo]
    rw [if_pos (by norm_num)]
    norm_num

/-- Witness for C7 (amended): token 0 of `plan0` — its stored percentage
78/25 = 3.12 is within 1/200 of the exact 25/8 = 3.125, and the tie goes
to the even hundredth. -/
theorem create_plan_pct_rounding_witness :
    ∃ n : Int,
      pyRound2 (pctOf 1 32) = (n : Rat) / 100
      ∧ |((1 : Int) : Rat) / ((32 : Int) : Rat) * 100 - (n : Rat) / 100| ≤ 1 / 200
      ∧ (|((1 : Int) : Rat) / ((32 : Int) : Rat) * 100 - (n : Rat) / 100| = 1 / 200 →
          n % 2 = 0) :=
  create_plan_pct_rounding [1, 31] [1, 31] [1, 1] 10 40 plan0 plan0_create (by decide)
    { token_index := 0, balance := 1, value := 1,
      allocation_pct := pyRound2 (pctOf 1 32) }
    (List.mem_cons_self _ _)

/-- Strict key order: `keyLe` plus distinct keys. -/
def keyLt (a b : String × PyVal) : Prop := keyLe a b ∧ a.1 ≠ b.1

instance : IsAntisymm (String × PyVal) keyLt :=
  ⟨fun a b hab hba =>
    absurd (String.ext (charListLe_antisymm a.1.data b.1.data hab.1 hba.1)) hab.2⟩

theorem sorted_keyLt_of_sorted_nodup {l : List (String × PyVal)}
    (hs : l.Sorted keyLe) (hnd : (l.map Prod.fst).Nodup) : l.Sorted keyLt := by
  have hne : l.Pairwise (fun a b : String × PyVal => a.1 ≠ b.1) :=
    List.pairwise_map.mp hnd
  exact (hs.and hne).imp fun h => ⟨h.1, h.2⟩

theorem insertionSort_eq_of_perm_nodup {l₁ l₂ : List (String × PyVal)}
    (hp : l₁.Perm l₂) (hnd : (l₁.map Prod.fst).Nodup) :
    List.insertionSort keyLe l₁ = List.insertionSort keyLe l₂ := by
  have hs₁ := List.sorted_insertionSort keyLe l₁
  have hs₂ := List.sorted_insertionSort keyLe l₂
  have hperm₁ := List.perm_insertionSort keyLe l₁
  have hperm₂ := List.perm_insertionSort keyLe l₂
  have hnd₁ : ((List.insertionSort keyLe l₁).map Prod.fst).Nodup :=
    ((hperm₁.map Prod.fst).nodup_iff).mpr hnd
  have hnd₂ : ((List.insertionSort keyLe l₂).map Prod.fst).Nodup :=
    ((hperm₂.map Prod.fst).nodup_iff).mpr ((hp.map Prod.fst).nodup_iff.mp hnd)
  exact List.eq_of_perm_of_sorted (hperm₁.trans (hp.trans hperm₂.symm))
    (sorted_keyLt_of_sorted_nodup hs₁ hnd₁) (sorted_keyLt_of_sorted_nodup hs₂ hnd₂)

theorem dumpVal_dict_perm {kvs kws : List (String × PyVal)}
    (hp : kvs.Perm kws) (hnd : (kvs.map Prod.fst).Nodup) :
    dumpVal (.dict kvs) = dumpVal (.dict kws) := by
  have h := insertionSort_eq_of_perm_nodup hp hnd
  simp only [dumpVal, h]

/-- Claim C6: canonical serialization — hence the SHA-256 content hash,
a fixed function of the serialized string — does not depend on the
insertion order of a dict's entries (for well-formed dicts, whose keys are
distinct): the producer's serialization of one ordering equals the
validator's serialization of any reordering, so both compute the same
hash.  The statement covers any dict entry list, hence applies at every
nesting level of a package. -/
theorem content_hash_order_independent (kvs kws : List (String × PyVal))
    (hperm : kvs.Perm kws) (hnd : (kvs.map Prod.fst).Nodup) :
    submitProofSerialized kvs = validateProofSerialized kws
    ∧ ∀ shaHex : String → String,
        shaHex (submitProofSerialized kvs) = shaHex (validateProofSerialized kws) := by
  have h : dumpVal (.dict kvs) = dumpVal (.dict kws) := dumpVal_dict_perm hperm hnd
  exact ⟨h, fun shaHex => congrArg shaHex h⟩

/-- Witness for C6: a two-field package serialized identically from both
insertion orders. -/
theorem content_hash_order_independent_witness :
    submitProofSerialized
        [("public_inputs", .list [.str "375000"]), ("proof", .dict goodProofEntries)] =
      validateProofSerialized
        [("proof", .dict goodProofEntries), ("public_inputs", .list [.str "375000"])] :=
  (content_hash_order_independent _ _
    (List.Perm.swap ("proof", .dict goodProofEntries)
      ("public_inputs", .list [.str "375000"]) [])
    (by decide)).1

theorem foldl_max_lt_iff (c : Rat) :
    ∀ (l : List Rat) (a : Rat), l.foldl max a < c ↔ a < c ∧ ∀ q ∈ l, q < c := by
  intro l
  induction l with
  | nil => intro a; simp
  | cons x xs ih =>
    intro a
    rw [List.foldl_cons, ih (max a x)]
    simp only [max_lt_iff, List.mem_cons]
    constructor
    · rintro ⟨⟨ha, hx⟩, hxs⟩
      exact ⟨ha, fun q hq => by rcases hq with rfl | hq; exact hx; exact hxs q hq⟩
    · rintro ⟨ha, hall⟩
      exact ⟨⟨ha, hall x (Or.inl rfl)⟩, fun q hq => hall q (Or.inr hq)⟩

theorem listMaxQ_lt_iff {l : List Rat} (h : l ≠ []) (c : Rat) :
    listMaxQ l < c ↔ ∀ q ∈ l, q < c := by
  cases l with
  | nil => exact absurd rfl h
  | cons x xs =>
    rw [listMaxQ, foldl_max_lt_iff]
    simp

theorem extractPcts_nil_iff {allocs : List PyVal} {pcts : List Rat}
    (h : extractPcts allocs = some pcts) : (pcts = [] ↔ allocs = []) := by
  cases allocs with
  | nil =>
    have hp : pcts = [] := by
      unfold extractPcts at h
      exact (Option.some_inj.mp h).symm
    simp [hp]
  | cons a rest =>
    constructor
    · intro hp
      exfalso
      cases a with
      | str s => simp [extractPcts] at h
      | int n => simp [extractPcts] at h
      | rat q => simp [extractPcts] at h
      | bool b => simp [extractPcts] at h
      | list xs => simp [extractPcts] at h
      | pyNone => simp [extractPcts] at h
      | dict kvs =>
        unfold extractPcts at h
        rcases h1 : dictGet kvs "allocation_pct" with _ | v
        · rw [h1] at h; cases h
        · rw [h1] at h
          dsimp only at h
          rcases h2 : pyNumOf v with _ | q
          · rw [h2] at h; cases h
          · rw [h2] at h
            dsimp only at h
            rcases h3 : extractPcts rest with _ | l
            · rw [h3] at h; cases h
            · rw [h3] at h
              simp only [Option.map, Option.some_inj] at h
              rw [← h] at hp
              cases hp
    · intro hr
      exact absurd hr (List.cons_ne_nil _ _)

/-- Claim C8 (amended): on a package whose plan and allocation entries are
well formed, the evaluator returns the additive rubric score — base 50,
+15 for a proof key, +10 for public inputs, +15 for a rebalancing plan,
+10 for an allocation list, and +10 only when the allocation list is
nonempty and every allocation is strictly below 50 percent (the source
uses `max_alloc < 50`, so an allocation of exactly 50 percent, and an
empty allocation list, forfeit the bonus) — clamped to at most 100 and
never below 50.  It never consults the verifier: no `CryptoOutcome`
enters the computation. -/
theorem evaluate_quality_rubric (pkg plan : List (String × PyVal))
    (allocs : List PyVal) (pcts : List Rat)
    (hplan : planEntries pkg = some plan)
    (hallocs : dictGetD plan "new_allocations" (.list []) = .list allocs)
    (hpcts : extractPcts allocs = some pcts) :
    evaluate_rebalancing_quality pkg = some (min (50
      + (if (dictGet pkg "proof").isSome then 15 else 0)
      + (if (dictGet pkg "public_inputs").isSome then 10 else 0)
      + (if (dictGet pkg "rebalancing_plan").isSome then 15 else 0)
      + (if (dictGet plan "new_allocations").isSome then 10 else 0)
      + (if pcts ≠ [] ∧ ∀ q ∈ pcts, q < 50 then 10 else 0)) 100)
    ∧ ∀ s, evaluate_rebalancing_quality pkg = some s → 50 ≤ s ∧ s ≤ 100 := by
  have hiff := extractPcts_nil_iff hpcts
  have key : evaluate_rebalancing_quality pkg = some (min (50
      + (if (dictGet pkg "proof").isSome then 15 else 0)
      + (if (dictGet pkg "public_inputs").isSome then 10 else 0)
      + (if (dictGet pkg "rebalancing_plan").isSome then 15 else 0)
      + (if (dictGet plan "new_allocations").isSome then 10 else 0)
      + (if pcts ≠ [] ∧ ∀ q ∈ pcts, q < 50 then 10 else 0)) 100) := by
    unfold evaluate_rebalancing_quality
    rw [hplan]
    dsimp only
    rw [hallocs]
    dsimp only
    by_cases he : allocs = []
    · have hpe : pcts = [] := hiff.mpr he
      rw [if_pos (by simp [he])]
      have hind : (if pcts ≠ [] ∧ ∀ q ∈ pcts, q < 50 then 10 else 0) = 0 := by
        rw [if_neg]
        rintro ⟨hne, _⟩
        exact hne hpe
      rw [hind]
      congr 1
      split_ifs <;> omega
    · rw [if_neg (by simp [he])]
      rw [hpcts]
      dsimp only
      have hpe : pcts ≠ [] := fun hp => he (hiff.mp hp)
      by_cases hm : listMaxQ pcts < 50
      · rw [if_pos hm]
        have hind : (if pcts ≠ [] ∧ ∀ q ∈ pcts, q < 50 then 10 else 0) = 10 := by
          rw [if_pos ⟨hpe, (listMaxQ_lt_iff hpe 50).mp hm⟩]
        rw [hind]
        congr 1
        split_ifs <;> omega
      · rw [if_neg hm]
        have hind : (if pcts ≠ [] ∧ ∀ q ∈ pcts, q < 50 then 10 else 0) = 0 := by
          rw [if_neg]
          rintro ⟨_, hall⟩
          exact hm ((listMaxQ_lt_iff hpe 50).mpr hall)
        rw [hind]
        congr 1
        split_ifs <;> omega
  refine ⟨key, ?_⟩
  intro s hs
  rw [key, Option.some_inj] at hs
  have hbase : 50 ≤ 50
      + (if (dictGet pkg "proof").isSome then 15 else 0)
      + (if (dictGet pkg "public_inputs").isSome then 10 else 0)
      + (if (dictGet pkg "rebalancing_plan").isSome then 15 else 0)
      + (if (dictGet plan "new_allocations").isSome then 10 else 0)
      + (if pcts ≠ [] ∧ ∀ q ∈ pcts, q < 50 then 10 else 0) := by
    split_ifs <;> omega
  constructor
  · rw [← hs]
    exact le_min hbase (by norm_num)
  · rw [← hs]
    exact min_le_right _ _

/-- A package whose single allocation is exactly 50 percent. -/
def pkgFifty : List (String × PyVal) :=
  [("rebalancing_plan", .dict
    [("new_allocations", .list [.dict [("allocation_pct", .rat 50)]])])]

/-- Counterexample to C8 as stated: with one allocation at exactly 50
percent (which does not exceed 50 percent) the claimed rubric gives
50+15+10+10 = 85, but the source's strict `max_alloc < 50` check withholds
the diversification bonus and returns 75. -/
theorem evaluate_quality_rubric_counterexample :
    evaluate_rebalancing_quality pkgFifty = some 75
    ∧ specQualityScore pkgFifty = some 85
    ∧ evaluate_rebalancing_quality pkgFifty ≠ specQualityScore pkgFifty := by
  have h1 : evaluate_rebalancing_quality pkgFifty = some 75 := by
    unfold evaluate_rebalancing_quality pkgFifty
    dsimp only [planEntries, dictGet, dictGetD]
    norm_num [listMaxQ, extractPcts, pyNumOf, dictGet]
    decide
  have h2 : specQualityScore pkgFifty = some 85 := by
    unfold specQualityScore pkgFifty
    dsimp only [planEntries, dictGet, dictGetD]
    norm_num [extractPcts, pyNumOf, dictGet]
    decide
  exact ⟨h1, h2, by rw [h1, h2]; simp⟩

/-- Witness for C8 (amended): the e2e package — proof, public inputs,
plan present, no allocation list in the plan dict used here, score 85. -/
theorem evaluate_quality_rubric_witness :
    evaluate_rebalancing_quality pkgFifty = some (min (50
      + (if (dictGet pkgFifty "proof").isSome then 15 else 0)
      + (if (dictGet pkgFifty "public_inputs").isSome then 10 else 0)
      + (if (dictGet pkgFifty "rebalancing_plan").isSome then 15 else 0)
      + (if (dictGet [("new_allocations",
            PyVal.list [.dict [("allocation_pct", .rat 50)]])] "new_allocations").isSome
          then 10 else 0)
      + (if ([(50 : Rat)] ≠ [] ∧ ∀ q ∈ [(50 : Rat)], q < 50) then 10 else 0)) 100) :=
  (evaluate_quality_rubric pkgFifty
    [("new_allocations", PyVal.list [.dict [("allocation_pct", .rat 50)]])]
    [.dict [("allocation_pct", .rat 50)]] [(50 : Rat)]
    (by rfl) (by rfl) (by rfl)).1

theorem mem_of_getLast?_eq {α : Type} {l : List α} {a : α}
    (h : l.getLast? = some a) : a ∈ l := by
  have hmem : a ∈ l.getLast? := by rw [Option.mem_def, h]
  obtain ⟨hne, heq⟩ := List.mem_getLast?_eq_getLast hmem
  rw [heq]
  exact List.getLast_mem hne

theorem le_getLast_of_pairwise :
    ∀ (l : List FeedbackRecord),
      l.Pairwise (fun a b => a.timestamp ≤ b.timestamp) →
      ∀ r ∈ l, ∀ lr, l.getLast? = some lr → r.timestamp ≤ lr.timestamp := by
  intro l
  induction l with
  | nil => intro _ r hr; cases hr
  | cons x xs ih =>
    intro hp r hr lr hlast
    rcases List.pairwise_cons.mp hp with ⟨hx, hxs⟩
    cases xs with
    | nil =>
      have hlr : lr = x := by
        rw [List.getLast?_singleton, Option.some_inj] at hlast
        exact hlast.symm
      have hrx : r = x := by
        rcases List.mem_cons.mp hr with h | h
        · exact h
        · cases h
      rw [hlr, hrx]
    | cons y ys =>
      have hlast' : (y :: ys).getLast? = some lr := by
        rwa [List.getLast?_cons_cons] at hlast
      rcases List.mem_cons.mp hr with rfl | hr'
      · exact hx lr (mem_of_getLast?_eq hlast')
      · exact ih hxs r hr' lr hlast'

/-- Claim C9 (amended): the reputation summary reports the server id, the
number of matching feedback records, their arithmetic mean score (0 with no
records — not an error) and, as `last_feedback`, the *last matching record
in insertion order* (`server_feedback[-1]`), which is a most-recent record
by timestamp whenever the matching records' timestamps are non-decreasing
in insertion order (as produced by successive `submit_feedback` calls) —
but not for histories whose timestamps run backwards. -/
theorem check_reputation_summary (history : List FeedbackRecord) (sid : Int) :
    (check_rebalancer_reputation history sid).server_id = sid
    ∧ (check_rebalancer_reputation history sid).feedback_count =
        (history.filter (fun f => f.server_id = sid)).length
    ∧ (history.filter (fun f => f.server_id = sid) = [] →
        (check_rebalancer_reputation history sid).average_score = 0
        ∧ (check_rebalancer_reputation history sid).last_feedback = Option.none)
    ∧ (history.filter (fun f => f.server_id = sid) ≠ [] →
        (check_rebalancer_reputation history sid).average_score =
          (((history.filter (fun f => f.server_id = sid)).map (fun f => f.score)).sum : Rat)
            / ((history.filter (fun f => f.server_id = sid)).length : Rat)
        ∧ (check_rebalancer_reputation history sid).last_feedback =
            (history.filter (fun f => f.server_id = sid)).getLast?)
    ∧ ((history.filter (fun f => f.server_id = sid)).Pairwise
          (fun a b => a.timestamp ≤ b.timestamp) →
        ∀ r ∈ history.filter (fun f => f.server_id = sid),
        ∀ lr, (check_rebalancer_reputation history sid).last_feedback = some lr →
          r.timestamp ≤ lr.timestamp) := by
  by_cases hfb : (history.filter (fun f => f.server_id = sid)).isEmpty
  · have hnil : history.filter (fun f => f.server_id = sid) = [] :=
      List.isEmpty_iff.mp hfb
    unfold check_rebalancer_reputation
    rw [if_pos hfb]
    refine ⟨rfl, by rw [hnil]; rfl, fun _ => ⟨rfl, rfl⟩, fun hne => absurd hnil hne, ?_⟩
    intro _ r hr
    rw [hnil] at hr
    cases hr
  · have hne : history.filter (fun f => f.server_id = sid) ≠ [] := by
      intro hnil
      rw [hnil] at hfb
      exact hfb rfl
    unfold check_rebalancer_reputation
    rw [if_neg hfb]
    refine ⟨rfl, rfl, fun hnil => absurd hnil hne, fun _ => ⟨rfl, rfl⟩, ?_⟩
    intro hp r hr lr hlast
    exact le_getLast_of_pairwise _ hp r hr lr hlast

/-- First feedback record of the counterexample history: early insertion,
late timestamp. -/
def recHighTs : FeedbackRecord :=
  { client_id := 7, server_id := 1, score := 90, comment := "first", timestamp := 100 }

/-- Second feedback record of the counterexample history: appended later
with an earlier timestamp (e.g. after a clock adjustment). -/
def recLowTs : FeedbackRecord :=
  { client_id := 7, server_id := 1, score := 40, comment := "second", timestamp := 50 }

/-- Counterexample to C9 as stated: the summary's last record is the last
one appended, whose timestamp 50 is older than the other matching record's
timestamp 100 — not the most recent record by timestamp. -/
theorem check_reputation_summary_counterexample :
    (check_rebalancer_reputation [recHighTs, recLowTs] 1).last_feedback = some recLowTs
    ∧ recHighTs ∈ ([recHighTs, recLowTs].filter (fun f => f.server_id = 1))
    ∧ recLowTs.timestamp < recHighTs.timestamp := by
  refine ⟨?_, by decide, by decide⟩
  rfl

/-- First chronological record for server 1 (timestamp 10). -/
def recEarly : FeedbackRecord :=
  { client_id := 7, server_id := 1, score := 80, comment := "a", timestamp := 10 }

/-- Later record for server 1 (timestamp 30). -/
def recLate : FeedbackRecord :=
  { client_id := 7, server_id := 1, score := 60, comment := "c", timestamp := 30 }

/-- A three-record history with chronological timestamps: records for
server 1 at timestamps 10 and 30, one for server 2 in between. -/
def hist0 : List FeedbackRecord :=
  [recEarly,
   { client_id := 7, server_id := 2, score := 50, comment := "b", timestamp := 20 },
   recLate]

/-- Witness for C9 (amended): on a chronological history the summary counts
both matching records and its last record has the maximal timestamp. -/
theorem check_reputation_summary_witness :
    (check_rebalancer_reputation hist0 1).feedback_count = 2
    ∧ recEarly.timestamp ≤ recLate.timestamp :=
  ⟨by rw [(check_reputation_summary hist0 1).2.1]; rfl,
   (check_reputation_summary hist0 1).2.2.2.2 (by decide) recEarly (by decide)
     recLate (by rfl)⟩

/-- Claim C10: a missing package (hash lookup failure) or a package whose
`proof` or `public_inputs` entry is falsy — absent, `None`, or an *empty*
container, even though an empty public-inputs list passes the structure
stage — short-circuits `validate_proof` into the error dict with score 0
and `validation_complete = False`; no stage runs, in particular the result
does not depend on the external verifier's outcome. -/
theorem validate_proof_early_exit (pkg : List (String × PyVal)) (c c' : CryptoOutcome)
    (h : truthy (dictGetD pkg "proof" .pyNone) = false
       ∨ truthy (dictGetD pkg "public_inputs" .pyNone) = false) :
    validate_proof (.package pkg) c = .failure "Invalid proof package format" 0 false
    ∧ validate_proof (.dataHash (some pkg)) c =
        .failure "Invalid proof package format" 0 false
    ∧ validate_proof (.package pkg) c = validate_proof (.package pkg) c'
    ∧ (∀ c₀, validate_proof (.dataHash Option.none) c₀ =
        .failure "Proof package not found" 0 false) := by
  have hfail : ∀ cc : CryptoOutcome,
      validateLoaded pkg cc = .failure "Invalid proof package format" 0 false := by
    intro cc
    unfold validateLoaded
    dsimp only
    rcases h with h | h <;> rw [if_pos (by simp [h])]
  exact ⟨hfail c, hfail c, (hfail c).trans (hfail c').symm, fun _ => rfl⟩

/-- A package with a structurally perfect proof but an empty public-inputs
list. -/
def pkgEmptyInputs : List (String × PyVal) :=
  [("proof", .dict goodProofEntries), ("public_inputs", .list [])]

/-- Witness for C10: the empty public-inputs list would score 100 in the
structure stage alone, yet `validate_proof` rejects the package up front,
identically for every verifier outcome. -/
theorem validate_proof_early_exit_witness :
    verifyProofStructure (.dict goodProofEntries) (.list []) = 100
    ∧ validate_proof (.package pkgEmptyInputs) .verified =
        .failure "Invalid proof package format" 0 false :=
  ⟨by rfl,
   (validate_proof_early_exit pkgEmptyInputs .verified .rejected (Or.inr (by rfl))).1⟩
